import Mathlib

/-!
Verification of the core Spotify API access layer of the
spotify-release-hub desktop application.

The definitions below are a shallow embedding, translated from the
service source (`SpotifyService`): the bulk-follow batcher, the retry
and backoff executor, the 429 rate-limit handler, the rolling-window
request throttle, the token-refresh single-flight state machine, the
recency-filtered release scan, and the playlist-analysis sort.
Remote calls are abstracted as oracles (a function from the call index
or chunk index to the response the network would have produced);
wall-clock instants are abstracted as integer millisecond timestamps
passed in explicitly.
-/

namespace SpotifyReleaseHub

/-! Constants from `src/shared/constants.ts`. -/

def DEFAULT_DELAY_MS : ℚ := 200

def RATE_LIMIT_RETRY_DEFAULT : Int := 5

def CHUNK_SIZE_FOLLOW : Nat := 20

def MAX_REQUESTS_PER_INTERVAL : Nat := 15

def REQUEST_INTERVAL_MS : Int := 1000

def MAX_RATE_LIMIT_WAIT_SECONDS : Int := 30

def MAX_DYNAMIC_DELAY_MS : ℚ := 2000

/-! ### Association-list model of a JS `Map`

`Map.set` overwrites the entry in place when the key is present and
appends otherwise; `Map.get` returns the stored value or nothing.
-/

def setAssoc {V : Type} (m : List (String × V)) (k : String) (v : V) : List (String × V) :=
  match m with
  | [] => [(k, v)]
  | (k', v') :: rest => if k' = k then (k, v) :: rest else (k', v') :: setAssoc rest k v

def lookupAssoc {V : Type} (m : List (String × V)) (k : String) : Option V :=
  match m with
  | [] => none
  | (k', v') :: rest => if k' = k then some v' else lookupAssoc rest k

/-- Decidable equality for `Except`, so concrete runs of the embedded
operations can be checked by evaluation. -/
instance {E A : Type} [DecidableEq E] [DecidableEq A] : DecidableEq (Except E A) := fun a b =>
  match a, b with
  | .ok x, .ok y =>
    if h : x = y then .isTrue (by rw [h]) else .isFalse (fun hc => h (Except.ok.inj hc))
  | .error x, .error y =>
    if h : x = y then .isTrue (by rw [h]) else .isFalse (fun hc => h (Except.error.inj hc))
  | .ok _, .error _ => .isFalse (fun hc => Except.noConfusion hc)
  | .error _, .ok _ => .isFalse (fun hc => Except.noConfusion hc)

/-! ### Chunking

`followArtistsBulk` walks `artistIds` in strides of `CHUNK_SIZE_FOLLOW`
taking `artistIds.slice(i, i + CHUNK_SIZE_FOLLOW)`; this is exactly
splitting the list into consecutive chunks of that size.
-/

def chunksOfAux {α : Type} (k : Nat) : List α → List (List α)
  | [] => []
  | x :: xs => ((x :: xs).take (k + 1)) :: chunksOfAux k ((x :: xs).drop (k + 1))
termination_by l => l.length
decreasing_by simp; omega

def chunksOf {α : Type} (n : Nat) (l : List α) : List (List α) :=
  match n with
  | 0 => []
  | k + 1 => chunksOfAux k l

/-! ### Cache state touched by `followArtistsBulk`

(`followStatusCache`, `followedArtistsCache`,
`followedArtistsCacheByLimit` in `SpotifyService`.)
-/

structure FollowStatusEntry where
  isFollowed : Bool
  timestamp : Int
deriving DecidableEq, Repr

structure FollowedListEntry where
  timestamp : Int
  artists : List String
deriving DecidableEq, Repr

structure CacheState where
  followStatusCache : List (String × FollowStatusEntry)
  followedArtistsCache : Option FollowedListEntry
  followedArtistsCacheByLimit : List (Nat × FollowedListEntry)
deriving DecidableEq, Repr

structure FollowArtistsResponse where
  followedCount : Nat
  failedCount : Nat
  failedArtists : List String
deriving DecidableEq, Repr

/-- Errors an operation of the facade can surface.  `invalidInput` is
the taxonomy kind for malformed playlist references and similar
structurally bad arguments. -/
inductive FacadeError where
  | invalidInput (message : String)
  | upstream (message : String)
deriving DecidableEq, Repr

/-- Per-chunk accumulation loop of `followArtistsBulk`: one remote
follow call per chunk (`apiCallWithRetry` around `PUT /me/following`);
on success the chunk length is added to `followedCount` and the chunk
IDs to `succeededIds`, on failure the chunk IDs are appended to
`failedArtists`.  `chunkOk i` abstracts whether the follow call for the
chunk at index `i` succeeded after its own retries.  Returns
`(followedCount, failedArtists, succeededIds)`. -/
def followChunksGo (chunkOk : Nat → Bool) : List (Nat × List String) → Nat × List String × List String
  | [] => (0, [], [])
  | (i, c) :: rest =>
    let (fc, fa, sid) := followChunksGo chunkOk rest
    if chunkOk i then (fc + c.length, fa, c ++ sid) else (fc, c ++ fa, sid)

/-- `SpotifyService.followArtistsBulk` (src lines 684-735), embedded.
The returned `Nat` counts the remote follow calls issued (exactly one
`apiCallWithRetry` invocation per chunk, succeed or fail).  After the
loop, if any chunk succeeded, every succeeded ID receives a fresh
follow-status entry `{isFollowed := true, timestamp := now}` and both
followed-artist listing caches are invalidated; otherwise the cache
state is untouched.  The source contains no input validation and no
throw path (per-chunk errors are caught), so the result is always
`Except.ok`. -/
def followArtistsBulk (artistIds : List String) (chunkOk : Nat → Bool) (now : Int)
    (st : CacheState) : Except FacadeError (FollowArtistsResponse × CacheState × Nat) :=
  let chunks := chunksOf CHUNK_SIZE_FOLLOW artistIds
  let (followedCount, failedArtists, succeededIds) := followChunksGo chunkOk chunks.enum
  let st' :=
    if succeededIds.length ≠ 0 then
      { st with
        followStatusCache :=
          succeededIds.foldl
            (fun m id => setAssoc m id { isFollowed := true, timestamp := now })
            st.followStatusCache
        followedArtistsCache := none
        followedArtistsCacheByLimit := [] }
    else st
  .ok ({ followedCount := followedCount
         failedCount := failedArtists.length
         failedArtists := failedArtists },
       st', chunks.length)

/-- The IDs of the chunks whose follow call succeeded, in order. -/
def succeededIdsOf (artistIds : List String) (chunkOk : Nat → Bool) : List String :=
  (followChunksGo chunkOk (chunksOf CHUNK_SIZE_FOLLOW artistIds).enum).2.2

/-- First-occurrence deduplication, as iterating a JS `Set` built from a
list (insertion order, first occurrence wins). -/
def dedupFirst : List String → List String
  | [] => []
  | x :: xs => x :: dedupFirst (xs.filter (fun y => y ≠ x))
termination_by l => l.length
decreasing_by exact Nat.lt_succ_of_le (List.length_filter_le _ _)

/-- Entry of `SpotifyService.getRelatedArtists` (src lines 562-566):
`Array.from(new Set(artistIds.filter(Boolean)))`; blank IDs are falsy
and dropped. -/
def relatedArtistsSeeds (artistIds : List String) : List String :=
  dedupFirst (artistIds.filter (fun s => s ≠ ""))

/-- `SpotifyService.getRelatedArtists` up to its empty-seed guard: when
the deduplicated non-blank seed list is empty the function returns `[]`
immediately, issuing zero remote calls; otherwise the remainder of the
function runs (abstracted here as `rest`, returning the artist list and
the number of remote calls issued). -/
def getRelatedArtistsOnSeeds (artistIds : List String)
    (rest : List String → Except FacadeError (List String × Nat)) :
    Except FacadeError (List String × Nat) :=
  let uniqueIds := relatedArtistsSeeds artistIds
  if uniqueIds.length = 0 then .ok ([], 0) else rest uniqueIds

/-! ### Lemmas about chunking and the follow loop -/

lemma chunksOfAux_join {α : Type} (k : Nat) :
    ∀ (n : Nat) (l : List α), l.length ≤ n → (chunksOfAux k l).flatten = l := by
  intro n
  induction n with
  | zero =>
    intro l hl
    cases l with
    | nil => rw [chunksOfAux]; rfl
    | cons x xs => simp at hl
  | succ n ih =>
    intro l hl
    cases l with
    | nil => rw [chunksOfAux]; rfl
    | cons x xs =>
      rw [chunksOfAux]
      rw [List.flatten_cons, ih (((x :: xs).drop (k + 1))) (by simp at hl ⊢; omega)]
      exact List.take_append_drop _ _

lemma chunksOf_join {α : Type} (k : Nat) (l : List α) :
    (chunksOf (k + 1) l).flatten = l :=
  chunksOfAux_join k l.length l le_rfl

lemma chunksOfAux_length {α : Type} (k : Nat) :
    ∀ (n : Nat) (l : List α), l.length ≤ n →
      (chunksOfAux k l).length = (l.length + k) / (k + 1) := by
  intro n
  induction n with
  | zero =>
    intro l hl
    cases l with
    | nil =>
      rw [chunksOfAux]
      simp only [List.length_nil, Nat.zero_add]
      exact (Nat.div_eq_of_lt (by omega)).symm
    | cons x xs => simp at hl
  | succ n ih =>
    intro l hl
    cases l with
    | nil =>
      rw [chunksOfAux]
      simp only [List.length_nil, Nat.zero_add]
      exact (Nat.div_eq_of_lt (by omega)).symm
    | cons x xs =>
      rw [chunksOfAux]
      simp only [List.length_cons, ih (((x :: xs).drop (k + 1))) (by simp at hl ⊢; omega),
        List.length_drop, List.length_cons]
      rcases Nat.le_total (xs.length + 1) (k + 1) with h | h
      · have hL : xs.length + 1 - (k + 1) + k = k := by omega
        have h3 : xs.length + 1 + k = xs.length + (k + 1) := by omega
        have d1 : k / (k + 1) = 0 := Nat.div_eq_of_lt (by omega)
        have d2 : xs.length / (k + 1) = 0 := Nat.div_eq_of_lt (by omega)
        simp only [hL, h3, Nat.add_div_right _ (Nat.succ_pos k), d1, d2]
      · have h2 : xs.length + 1 - (k + 1) + k = xs.length := by omega
        have h3 : xs.length + 1 + k = xs.length + (k + 1) := by omega
        simp only [h2, h3, Nat.add_div_right _ (Nat.succ_pos k)]

lemma chunksOf_length {α : Type} (k : Nat) (l : List α) :
    (chunksOf (k + 1) l).length = (l.length + k) / (k + 1) :=
  chunksOfAux_length k l.length l le_rfl

lemma chunksOfAux_ne_nil {α : Type} (k : Nat) :
    ∀ (n : Nat) (l : List α) (c : List α), l.length ≤ n → c ∈ chunksOfAux k l → c ≠ [] := by
  intro n
  induction n with
  | zero =>
    intro l c hl hc
    cases l with
    | nil => rw [chunksOfAux] at hc; simp at hc
    | cons x xs => simp at hl
  | succ n ih =>
    intro l c hl hc
    cases l with
    | nil => rw [chunksOfAux] at hc; simp at hc
    | cons x xs =>
      rw [chunksOfAux] at hc
      rcases List.mem_cons.mp hc with h | h
      · subst h
        simp
      · exact ih _ c (by simp at hl ⊢; omega) h

lemma followChunksGo_count (ok : Nat → Bool) (ics : List (Nat × List String)) :
    (followChunksGo ok ics).1 + (followChunksGo ok ics).2.1.length =
      ((ics.map Prod.snd).flatten).length := by
  induction ics with
  | nil => rfl
  | cons p rest ih =>
    obtain ⟨i, c⟩ := p
    rcases he : followChunksGo ok rest with ⟨fc, fa, sid⟩
    rw [he] at ih
    simp only [followChunksGo, he]
    cases h : ok i <;> simp [h] <;> simp at ih <;> omega

lemma followChunksGo_failed (ok : Nat → Bool) (ics : List (Nat × List String)) :
    (followChunksGo ok ics).2.1 =
      ((ics.filter (fun p => !ok p.1)).map Prod.snd).flatten := by
  induction ics with
  | nil => rfl
  | cons p rest ih =>
    obtain ⟨i, c⟩ := p
    rcases he : followChunksGo ok rest with ⟨fc, fa, sid⟩
    rw [he] at ih
    simp only [followChunksGo, he]
    cases h : ok i <;> simp [h, List.filter_cons] <;> simp at ih <;> exact ih

lemma followChunksGo_succeeded (ok : Nat → Bool) (ics : List (Nat × List String)) :
    (followChunksGo ok ics).2.2 =
      ((ics.filter (fun p => ok p.1)).map Prod.snd).flatten := by
  induction ics with
  | nil => rfl
  | cons p rest ih =>
    obtain ⟨i, c⟩ := p
    rcases he : followChunksGo ok rest with ⟨fc, fa, sid⟩
    rw [he] at ih
    simp only [followChunksGo, he]
    cases h : ok i <;> simp [h, List.filter_cons] <;> simp at ih <;> exact ih

lemma followChunksGo_allFail (ok : Nat → Bool) (hfail : ∀ i, ok i = false)
    (ics : List (Nat × List String)) :
    followChunksGo ok ics = (0, (ics.map Prod.snd).flatten, []) := by
  induction ics with
  | nil => rfl
  | cons p rest ih =>
    obtain ⟨i, c⟩ := p
    simp only [followChunksGo, ih]
    simp [hfail i]

lemma lookupAssoc_setAssoc {V : Type} (m : List (String × V)) (k k' : String) (v : V) :
    lookupAssoc (setAssoc m k v) k' = if k = k' then some v else lookupAssoc m k' := by
  induction m with
  | nil => simp [setAssoc, lookupAssoc]
  | cons p rest ih =>
    obtain ⟨k0, v0⟩ := p
    by_cases h0 : k0 = k
    · subst h0
      by_cases h1 : k0 = k' <;> simp [setAssoc, lookupAssoc, h1]
    · by_cases h1 : k0 = k'
      · have hk : k ≠ k' := by
          subst h1
          exact fun h => h0 h.symm
        have h0' : ¬(k' = k) := fun h => h0 (h1.trans h)
        simp [setAssoc, lookupAssoc, h0, h1, hk, h0']
      · simp [setAssoc, lookupAssoc, h0, h1, ih]

lemma lookupAssoc_foldl_set {V : Type} (v : V) (ids : List String) :
    ∀ (m : List (String × V)) (id : String),
      lookupAssoc (ids.foldl (fun m i => setAssoc m i v) m) id =
        if id ∈ ids then some v else lookupAssoc m id := by
  induction ids with
  | nil => intro m id; simp
  | cons x xs ih =>
    intro m id
    rw [List.foldl_cons, ih]
    by_cases hmem : id ∈ xs
    · simp [hmem]
    · rw [if_neg hmem, lookupAssoc_setAssoc]
      by_cases hx : id = x
      · subst hx
        simp
      · rw [if_neg (fun h => hx h.symm), if_neg (by simp [hx, hmem])]

lemma chunksOf_csf (l : List String) : chunksOf CHUNK_SIZE_FOLLOW l = chunksOfAux 19 l := rfl

lemma chunksFollow_length (l : List String) :
    (chunksOf CHUNK_SIZE_FOLLOW l).length = (l.length + 19) / 20 := by
  have h := chunksOf_length (α := String) 19 l
  simpa [CHUNK_SIZE_FOLLOW] using h

lemma chunksFollow_flatten (l : List String) :
    (chunksOf CHUNK_SIZE_FOLLOW l).flatten = l := by
  have h := chunksOf_join (α := String) 19 l
  simpa [CHUNK_SIZE_FOLLOW] using h

lemma chunksFollow_ne_nil (l : List String) (c : List String)
    (hc : c ∈ chunksOf CHUNK_SIZE_FOLLOW l) : c ≠ [] := by
  have h : c ∈ chunksOfAux 19 l := by simpa [CHUNK_SIZE_FOLLOW, chunksOf] using hc
  exact chunksOfAux_ne_nil 19 l.length l c le_rfl h

/-! ### Claims C1, C7, C9, C10 about `followArtistsBulk` -/

/-- Claim C1: for every list of artist IDs of length N, `followArtistsBulk`
issues exactly ceil(N/20) follow calls (one per 20-ID chunk), the returned
`followedCount` plus `failedCount` equals N, and `failedArtists` lists
exactly the IDs of the chunks whose follow call failed, in order. -/
theorem followArtistsBulk_chunk_accounting (ids : List String) (ok : Nat → Bool) (now : Int)
    (st : CacheState) :
    ∃ resp st2 calls,
      followArtistsBulk ids ok now st = .ok (resp, st2, calls) ∧
      calls = (ids.length + 19) / 20 ∧
      resp.followedCount + resp.failedCount = ids.length ∧
      resp.failedArtists =
        ((((chunksOf CHUNK_SIZE_FOLLOW ids).enum.filter
            (fun p => !ok p.1)).map Prod.snd).flatten) := by
  rcases he : followChunksGo ok (chunksOf CHUNK_SIZE_FOLLOW ids).enum with ⟨fc, fa, sid⟩
  refine ⟨⟨fc, fa.length, fa⟩,
    (if sid.length ≠ 0 then
      { st with
        followStatusCache :=
          sid.foldl (fun m id => setAssoc m id { isFollowed := true, timestamp := now })
            st.followStatusCache
        followedArtistsCache := none
        followedArtistsCacheByLimit := [] }
     else st),
    (chunksOf CHUNK_SIZE_FOLLOW ids).length, ?_, ?_, ?_, ?_⟩
  · simp only [followArtistsBulk, he]
  · exact chunksFollow_length ids
  · have hc := followChunksGo_count ok (chunksOf CHUNK_SIZE_FOLLOW ids).enum
    rw [he] at hc
    simpa [List.enum_map_snd, chunksFollow_flatten] using hc
  · have hf := followChunksGo_failed ok (chunksOf CHUNK_SIZE_FOLLOW ids).enum
    rw [he] at hf
    exact hf

/-- Claim C7: after `followArtistsBulk`, every ID belonging to a
successfully-followed chunk has a fresh follow-status cache entry with
value true and timestamp `now`, and if at least one chunk succeeded both
followed-artist listing caches are invalidated entirely. -/
theorem followArtistsBulk_cache_invalidation (ids : List String) (ok : Nat → Bool) (now : Int)
    (st : CacheState) (resp : FollowArtistsResponse) (st2 : CacheState) (calls : Nat)
    (heq : followArtistsBulk ids ok now st = .ok (resp, st2, calls)) :
    (∀ id ∈ succeededIdsOf ids ok,
        lookupAssoc st2.followStatusCache id = some { isFollowed := true, timestamp := now }) ∧
    ((∃ p ∈ (chunksOf CHUNK_SIZE_FOLLOW ids).enum, ok p.1 = true) →
        st2.followedArtistsCache = none ∧ st2.followedArtistsCacheByLimit = []) := by
  rcases he : followChunksGo ok (chunksOf CHUNK_SIZE_FOLLOW ids).enum with ⟨fc, fa, sid⟩
  simp only [followArtistsBulk, he] at heq
  have hsid : succeededIdsOf ids ok = sid := by
    simp only [succeededIdsOf, he]
  rw [Except.ok.injEq, Prod.mk.injEq, Prod.mk.injEq] at heq
  obtain ⟨-, hst2, -⟩ := heq
  constructor
  · intro id hid
    rw [hsid] at hid
    have hne : sid.length ≠ 0 := by
      rw [ne_eq, List.length_eq_zero]
      exact List.ne_nil_of_mem hid
    rw [← hst2]
    simp only [if_pos hne]
    rw [lookupAssoc_foldl_set]
    simp [hid]
  · rintro ⟨p, hp, hok⟩
    have hsucc := followChunksGo_succeeded ok (chunksOf CHUNK_SIZE_FOLLOW ids).enum
    rw [he] at hsucc
    have hsucc2 : sid =
        ((((chunksOf CHUNK_SIZE_FOLLOW ids).enum.filter
          (fun p => ok p.1)).map Prod.snd).flatten) := hsucc
    have hpf : p ∈ (chunksOf CHUNK_SIZE_FOLLOW ids).enum.filter (fun p => ok p.1) :=
      List.mem_filter.mpr ⟨hp, by simp [hok]⟩
    have hcm : p.2 ∈ chunksOf CHUNK_SIZE_FOLLOW ids := List.snd_mem_of_mem_enum hp
    have hcne : p.2 ≠ [] := chunksFollow_ne_nil ids p.2 hcm
    obtain ⟨x, hx⟩ := List.exists_mem_of_ne_nil p.2 hcne
    have hxs : x ∈ sid := by
      rw [hsucc2]
      exact List.mem_flatten.mpr ⟨p.2, List.mem_map.mpr ⟨p, hpf, rfl⟩, hx⟩
    have hne : sid.length ≠ 0 := by
      rw [ne_eq, List.length_eq_zero]
      exact List.ne_nil_of_mem hxs
    rw [← hst2]
    have hnil : sid ≠ [] := List.ne_nil_of_mem hxs
    simp [hne, hnil]

/-- Witness for claim C7 at a concrete input: two IDs in one succeeding
chunk; the follow-status cache holds fresh true entries and the listing
caches are cleared. -/
theorem followArtistsBulk_cache_invalidation_witness :
    lookupAssoc
        (match followArtistsBulk ["a", "b"] (fun _ => true) 7
            { followStatusCache := [("a", { isFollowed := false, timestamp := 0 })]
              followedArtistsCache := some { timestamp := 0, artists := ["z"] }
              followedArtistsCacheByLimit := [(3, { timestamp := 0, artists := ["z"] })] } with
          | .ok (_, st2, _) => st2.followStatusCache
          | .error _ => []) "a" =
      some { isFollowed := true, timestamp := 7 } := by
  have h := followArtistsBulk_cache_invalidation ["a", "b"] (fun _ => true) 7
    { followStatusCache := [("a", { isFollowed := false, timestamp := 0 })]
      followedArtistsCache := some { timestamp := 0, artists := ["z"] }
      followedArtistsCacheByLimit := [(3, { timestamp := 0, artists := ["z"] })] }
    { followedCount := 2, failedCount := 0, failedArtists := [] }
    { followStatusCache := [("a", { isFollowed := true, timestamp := 7 }),
        ("b", { isFollowed := true, timestamp := 7 })]
      followedArtistsCache := none
      followedArtistsCacheByLimit := [] }
    1
    (by simp [followArtistsBulk, chunksOf_csf, chunksOfAux, followChunksGo, setAssoc])
  have h1 := h.1 "a" (by simp [succeededIdsOf, chunksOf_csf, chunksOfAux, followChunksGo])
  simpa [followArtistsBulk, chunksOf, chunksOfAux, followChunksGo, setAssoc] using h1

/-- Claim C9 counterexample: `followArtistsBulk` invoked with an empty
ID list does not fail with an InvalidInput error; it returns normally
with zero counts, an unchanged cache state, and zero remote calls. -/
theorem followArtistsBulk_empty_returns_ok :
    followArtistsBulk [] (fun _ => false) 0
        { followStatusCache := [], followedArtistsCache := none,
          followedArtistsCacheByLimit := [] } =
      .ok ({ followedCount := 0, failedCount := 0, failedArtists := [] },
        { followStatusCache := [], followedArtistsCache := none,
          followedArtistsCacheByLimit := [] }, 0) := by
  simp [followArtistsBulk, chunksOf_csf, chunksOfAux, followChunksGo]

/-- Claim C9 amended: invoking `followArtistsBulk` with an empty ID list
returns immediately and normally (followedCount 0, failedCount 0, empty
failed list, cache untouched) with zero remote calls, and
`getRelatedArtists` with an empty seed list returns the empty list with
zero remote calls; neither raises an InvalidInput error. -/
theorem emptyIdList_no_invalidInput (ok : Nat → Bool) (now : Int) (st : CacheState)
    (rest : List String → Except FacadeError (List String × Nat)) :
    followArtistsBulk [] ok now st =
      .ok ({ followedCount := 0, failedCount := 0, failedArtists := [] }, st, 0) ∧
    getRelatedArtistsOnSeeds [] rest = .ok ([], 0) := by
  constructor
  · simp [followArtistsBulk, chunksOf_csf, chunksOfAux, followChunksGo]
  · simp [getRelatedArtistsOnSeeds, relatedArtistsSeeds, dedupFirst]

/-- Claim C10: if every chunk of a `followArtistsBulk` invocation fails,
no cache state is modified and the operation returns normally with
`followedCount = 0` and `failedArtists` equal to the full input list. -/
theorem followArtistsBulk_allFailed (ids : List String) (ok : Nat → Bool) (now : Int)
    (st : CacheState) (hfail : ∀ i, ok i = false) :
    followArtistsBulk ids ok now st =
      .ok ({ followedCount := 0, failedCount := ids.length, failedArtists := ids },
        st, (ids.length + 19) / 20) := by
  simp only [followArtistsBulk, followChunksGo_allFail ok hfail, List.enum_map_snd,
    chunksFollow_flatten, chunksFollow_length, List.length_nil, ne_eq,
    not_true_eq_false, ite_false]

/-- Witness for claim C10 at a concrete input: both chunks fail, the
response reports every input ID as failed, and the cache state is
returned unchanged. -/
theorem followArtistsBulk_allFailed_witness :
    followArtistsBulk ["a", "b"] (fun _ => false) 3
        { followStatusCache := [("a", { isFollowed := true, timestamp := 1 })]
          followedArtistsCache := none
          followedArtistsCacheByLimit := [] } =
      .ok ({ followedCount := 0, failedCount := 2, failedArtists := ["a", "b"] },
        { followStatusCache := [("a", { isFollowed := true, timestamp := 1 })]
          followedArtistsCache := none
          followedArtistsCacheByLimit := [] }, 1) := by
  have h := followArtistsBulk_allFailed ["a", "b"] (fun _ => false) 3
    { followStatusCache := [("a", { isFollowed := true, timestamp := 1 })]
      followedArtistsCache := none
      followedArtistsCacheByLimit := [] }
    (fun _ => rfl)
  simpa using h

/-! ### Retry/Backoff executor (`apiCallWithRetry`, `handleRateLimit`)

A remote call attempt either succeeds or fails; a failure carries the
HTTP status together with the parsed `retry-after` header (absent or
unparsable folded to `none`, as the source folds a missing header or a
NaN parse into the default), or a transport error code, or something
else.  The random jitter and the rate-gate wait that precede each
attempt are not part of these claims and are modelled separately (see
`throttleStep`); the sleep log below records the catch-path sleeps of
the retry loop in milliseconds.
-/

inductive ApiFailure where
  | http (status : Int) (retryAfter : Option Int)
  | net (code : String)
  | other (message : String)
deriving DecidableEq, Repr

inductive ExecFailure where
  | rateLimitExceeded (minutes : Int)
  | networkAfter (attempts : Nat) (code : String)
  | thrown (e : ApiFailure)
  | maxRetriesExceeded
deriving DecidableEq, Repr

/-- `Math.min` / `Math.max` on finite numbers, written with `if` so that
concrete runs reduce by evaluation. -/
def minQ (a b : ℚ) : ℚ := if Rat.blt b a then b else a

def maxQ (a b : ℚ) : ℚ := if Rat.blt a b then b else a

def minI (a b : Int) : Int := if a ≤ b then a else b

def isStatus429 : ApiFailure → Bool
  | .http status _ => status = 429
  | _ => false

def isTransientNet : ApiFailure → Bool
  | .net code => decide (code = "ECONNRESET" ∨ code = "ETIMEDOUT" ∨ code = "ECONNABORTED")
  | _ => false

def netCodeOf : ApiFailure → String
  | .net code => code
  | _ => ""

/-- `SpotifyService.handleRateLimit` (src lines 278-302): on a 429, read
the retry-after hint (default when absent); if it exceeds the hard
ceiling, throw a rate-limit-exceeded error naming the estimated wait in
minutes; otherwise return the wait (seconds) together with the grown
adaptive delay (multiplied by 1.5, clamped at the ceiling).  Any
non-429 error is rethrown. -/
def handleRateLimit (e : ApiFailure) (currentDelayMs : ℚ) : Except ExecFailure (Int × ℚ) :=
  match e with
  | .http status retryAfter =>
    if status = 429 then
      let requestedWait : Int := retryAfter.getD RATE_LIMIT_RETRY_DEFAULT
      if requestedWait > MAX_RATE_LIMIT_WAIT_SECONDS then
        .error (.rateLimitExceeded ⌈(requestedWait : ℚ) / 60⌉)
      else
        let waitTime := minI requestedWait MAX_RATE_LIMIT_WAIT_SECONDS
        .ok (waitTime, minQ (currentDelayMs * (3 / 2)) MAX_DYNAMIC_DELAY_MS)
    else .error (.thrown e)
  | _ => .error (.thrown e)

structure ExecTrace where
  calls : Nat
  sleepsMs : List Int
deriving DecidableEq, Repr

/-- The attempt loop of `SpotifyService.apiCallWithRetry` (src lines
304-350).  `oracle i` is the outcome of the i-th invocation of the
wrapped remote call; `attempt` is the loop counter and `remaining` the
attempts left (`maxRetries - attempt`), so a 429 `continue` — which in
the source advances the `for` counter — consumes an attempt here too.
On success the adaptive delay decays (times 0.9, floored, clamped below
at the base); on a 429 within the ceiling the loop sleeps
`(waitTime + 1)` seconds and retries; on a transient network code it
sleeps `2^attempt * 2000` ms; on any other error `2^attempt * 1000` ms;
the final attempt propagates instead of sleeping.  Returns the result,
the adaptive delay afterwards and the call/sleep trace. -/
def apiCallWithRetryGo {T : Type} (oracle : Nat → Except ApiFailure T) (maxRetries : Nat)
    (attempt : Nat) (remaining : Nat) (d : ℚ) (tr : ExecTrace) :
    Except ExecFailure T × ℚ × ExecTrace :=
  match remaining with
  | 0 => (.error .maxRetriesExceeded, d, tr)
  | r + 1 =>
    let tr := { tr with calls := tr.calls + 1 }
    match oracle attempt with
    | .ok v => (.ok v, maxQ DEFAULT_DELAY_MS ((Rat.floor (d * (9 / 10)) : ℤ) : ℚ), tr)
    | .error e =>
      if isStatus429 e then
        match handleRateLimit e d with
        | .error err => (.error err, d, tr)
        | .ok (waitTime, d2) =>
          apiCallWithRetryGo oracle maxRetries (attempt + 1) r d2
            { tr with sleepsMs := tr.sleepsMs ++ [(waitTime + 1) * 1000] }
      else if isTransientNet e then
        if attempt = maxRetries - 1 then (.error (.networkAfter maxRetries (netCodeOf e)), d, tr)
        else
          apiCallWithRetryGo oracle maxRetries (attempt + 1) r d
            { tr with sleepsMs := tr.sleepsMs ++ [((2 ^ attempt * 2000 : ℕ) : ℤ)] }
      else
        if attempt = maxRetries - 1 then (.error (.thrown e), d, tr)
        else
          apiCallWithRetryGo oracle maxRetries (attempt + 1) r d
            { tr with sleepsMs := tr.sleepsMs ++ [((2 ^ attempt * 1000 : ℕ) : ℤ)] }

def apiCallWithRetry {T : Type} (oracle : Nat → Except ApiFailure T) (maxRetries : Nat := 5)
    (d : ℚ := DEFAULT_DELAY_MS) : Except ExecFailure T × ℚ × ExecTrace :=
  apiCallWithRetryGo oracle maxRetries 0 maxRetries d { calls := 0, sleepsMs := [] }

/-! ### Claims C2 and C3 about the retry executor -/

/-- Claim C2 counterexample: five consecutive 429 responses whose hint
(5 seconds) is within the 30-second ceiling exhaust the 5-attempt
budget — the run ends in the max-retries-exceeded error after exactly 5
calls, refuting that 429 retries are free of attempt-budget
consumption. -/
theorem retry429_exhausts_budget :
    (apiCallWithRetry (T := Nat) (fun _ => .error (.http 429 (some 5))) 5 200).1 =
        .error .maxRetriesExceeded ∧
    (apiCallWithRetry (T := Nat) (fun _ => .error (.http 429 (some 5))) 5 200).2.2 =
        { calls := 5, sleepsMs := [6000, 6000, 6000, 6000, 6000] } := by
  decide

/-- Claim C2 amended: whenever an attempt fails with HTTP 429 whose
retry-after hint (default 5 when the header is absent) does not exceed
the 30-second ceiling, the executor sleeps hint+1 seconds, grows the
adaptive delay by a factor of 1.5 clamped at the 2000 ms ceiling, and
retries — consuming one attempt of the 5-attempt budget exactly like
other retried errors (the 429 `continue` advances the loop counter), so
5 consecutive 429s exhaust the budget. -/
theorem retry429_soft_retry {T : Type} (oracle : Nat → Except ApiFailure T)
    (maxRetries attempt r : Nat) (d : ℚ) (tr : ExecTrace) (ra : Option Int)
    (hor : oracle attempt = .error (.http 429 ra))
    (hle : ra.getD RATE_LIMIT_RETRY_DEFAULT ≤ MAX_RATE_LIMIT_WAIT_SECONDS) :
    apiCallWithRetryGo oracle maxRetries attempt (r + 1) d tr =
      apiCallWithRetryGo oracle maxRetries (attempt + 1) r
        (minQ (d * (3 / 2)) MAX_DYNAMIC_DELAY_MS)
        { calls := tr.calls + 1,
          sleepsMs := tr.sleepsMs ++ [(ra.getD RATE_LIMIT_RETRY_DEFAULT + 1) * 1000] } := by
  have hngt : ¬(ra.getD RATE_LIMIT_RETRY_DEFAULT > MAX_RATE_LIMIT_WAIT_SECONDS) :=
    not_lt.mpr hle
  rw [apiCallWithRetryGo, hor]
  simp [isStatus429, handleRateLimit, hngt, minI, if_pos hle]

/-- Witness for claim C2 at a concrete input: a 429 with hint 3 on the
first of 5 attempts sleeps 4000 ms, grows the delay from 200 to 300 and
continues with only 4 attempts left. -/
theorem retry429_soft_retry_witness :
    apiCallWithRetryGo (T := Nat) (fun _ => .error (.http 429 (some 3))) 5 0 5 200
        { calls := 0, sleepsMs := [] } =
      apiCallWithRetryGo (fun _ => .error (.http 429 (some 3))) 5 1 4
        (minQ (200 * (3 / 2)) MAX_DYNAMIC_DELAY_MS) { calls := 1, sleepsMs := [4000] } := by
  have h := retry429_soft_retry (T := Nat) (fun _ => .error (.http 429 (some 3))) 5 0 4 200
    { calls := 0, sleepsMs := [] } (some 3) rfl (by decide)
  simpa [RATE_LIMIT_RETRY_DEFAULT] using h

/-- Claim C3: an attempt failing with HTTP 429 whose retry-after hint
exceeds the 30-second ceiling makes the whole operation fail
immediately with a rate-limit-exceeded error reporting the estimated
wait in minutes (ceil of hint/60): the delay is unchanged, no sleep is
performed and no further call is made beyond the failing one. -/
theorem retry429_over_ceiling_fails {T : Type} (oracle : Nat → Except ApiFailure T)
    (maxRetries attempt r : Nat) (d : ℚ) (tr : ExecTrace) (w : Int)
    (hor : oracle attempt = .error (.http 429 (some w)))
    (hgt : w > MAX_RATE_LIMIT_WAIT_SECONDS) :
    apiCallWithRetryGo oracle maxRetries attempt (r + 1) d tr =
      (.error (.rateLimitExceeded ⌈(w : ℚ) / 60⌉), d,
        { calls := tr.calls + 1, sleepsMs := tr.sleepsMs }) := by
  rw [apiCallWithRetryGo, hor]
  simp [isStatus429, handleRateLimit, hgt]

/-- Witness for claim C3 at a concrete input: a 429 with hint 120
seconds fails the whole run at once with an estimated wait of 2
minutes, one call made and nothing slept. -/
theorem retry429_over_ceiling_fails_witness :
    apiCallWithRetry (T := Nat) (fun _ => .error (.http 429 (some 120))) 5 200 =
      (.error (.rateLimitExceeded 2), 200, { calls := 1, sleepsMs := [] }) := by
  have h := retry429_over_ceiling_fails (T := Nat) (fun _ => .error (.http 429 (some 120)))
    5 0 4 200 { calls := 0, sleepsMs := [] } 120 rfl (by decide)
  rw [apiCallWithRetry]
  rw [h]
  norm_num

/-! ### Rate gate (`throttleRequests`, src lines 260-276)

The service keeps `requestTimestamps`; on each admission attempt at
instant `now` it first discards timestamps older than the window
(`now - timestamp < REQUEST_INTERVAL_MS` kept), then admits and records
`now` when fewer than `MAX_REQUESTS_PER_INTERVAL` remain, and otherwise
computes a wait until the oldest kept timestamp leaves the window plus
a 25 ms safety margin and retries after suspending.  `throttleStep`
returns the new timestamp list on admission and `none` when the caller
must wait `throttleWaitMs` and re-check at a later instant;
`runAdmissions` replays a sequence of successful admission instants. -/

def throttleFilter (ts : List Int) (now : Int) : List Int :=
  ts.filter (fun t => now - t < REQUEST_INTERVAL_MS)

def throttleStep (ts : List Int) (now : Int) : Option (List Int) :=
  let ts2 := throttleFilter ts now
  if ts2.length < MAX_REQUESTS_PER_INTERVAL then some (ts2 ++ [now]) else none

def throttleWaitMs (ts2 : List Int) (now : Int) : Int :=
  REQUEST_INTERVAL_MS - (now - ts2.headI) + 25

def runAdmissions (st : List Int) : List Int → Option (List Int)
  | [] => some st
  | t :: ts =>
    match throttleStep st t with
    | some st2 => runAdmissions st2 ts
    | none => none

lemma runAdmissions_append (l1 l2 : List Int) :
    ∀ st, runAdmissions st (l1 ++ l2) =
      (runAdmissions st l1).bind (fun m => runAdmissions m l2) := by
  induction l1 with
  | nil => intro st; simp [runAdmissions]
  | cons t ts ih =>
    intro st
    rw [List.cons_append, runAdmissions, runAdmissions]
    cases throttleStep st t with
    | none => simp
    | some st2 => simpa using ih st2

lemma throttleFilter_throttleFilter (l : List Int) (b a : Int) (hba : b ≤ a) :
    throttleFilter (throttleFilter l b) a = throttleFilter l a := by
  rw [throttleFilter, throttleFilter, throttleFilter, List.filter_filter]
  apply List.filter_congr
  intro t _
  by_cases h : a - t < REQUEST_INTERVAL_MS
  · have hb : b - t < REQUEST_INTERVAL_MS := by
      simp only [REQUEST_INTERVAL_MS] at h ⊢
      omega
    simp [h, hb]
  · simp [h]

lemma runAdmissions_state (l : List Int) :
    l.Chain' (· ≤ ·) → ∀ st, runAdmissions [] l = some st →
      (l = [] ∧ st = []) ∨ (∃ b, l.getLast? = some b ∧ st = throttleFilter l b) := by
  induction l using List.reverseRecOn with
  | nil =>
    intro _ st h
    left
    simp only [runAdmissions] at h
    exact ⟨rfl, (Option.some.inj h).symm⟩
  | append_singleton l a ih =>
    intro hchain st h
    right
    rw [runAdmissions_append] at h
    rcases hmid : runAdmissions [] l with _ | mid
    · rw [hmid] at h
      simp at h
    · rw [hmid] at h
      simp only [Option.some_bind] at h
      simp only [runAdmissions] at h
      rcases hstep : throttleStep mid a with _ | st2
      · rw [hstep] at h
        simp at h
      · rw [hstep] at h
        simp only [runAdmissions] at h
        have hst : st = st2 := (Option.some.inj h).symm
        have hchain' : l.Chain' (· ≤ ·) := (List.chain'_append.mp hchain).1
        rcases ih hchain' mid hmid with ⟨hl, hmid0⟩ | ⟨b, hlast, hmidf⟩
        · subst hl hmid0
          refine ⟨a, by simp, ?_⟩
          rw [throttleStep] at hstep
          simp only [throttleFilter, List.filter_nil, List.length_nil] at hstep
          rw [if_pos (by simp [MAX_REQUESTS_PER_INTERVAL])] at hstep
          rw [hst, ← Option.some.inj hstep]
          simp [throttleFilter, REQUEST_INTERVAL_MS]
        · have hba : b ≤ a := by
            have h3 := (List.chain'_append.mp hchain).2.2
            exact h3 b hlast a (by simp)
          rw [throttleStep, hmidf] at hstep
          by_cases hlen : (throttleFilter (throttleFilter l b) a).length <
              MAX_REQUESTS_PER_INTERVAL
          · rw [if_pos hlen] at hstep
            refine ⟨a, by simp, ?_⟩
            rw [hst, ← Option.some.inj hstep,
              throttleFilter_throttleFilter l b a hba]
            have hfa : throttleFilter (l ++ [a]) a =
                throttleFilter l a ++ [a] := by
              simp [throttleFilter, List.filter_append, REQUEST_INTERVAL_MS]
            rw [hfa]
          · rw [if_neg hlen] at hstep
            exact absurd hstep (by simp)

/-- Claim C6: along every sequence of admissions through the rate gate
taken at nondecreasing instants, at most `MAX_REQUESTS_PER_INTERVAL`
(15) admission timestamps fall within any rolling window of
`REQUEST_INTERVAL_MS` (1000 ms). -/
theorem throttle_window_invariant (times : List Int) :
    times.Chain' (· ≤ ·) → ∀ final, runAdmissions [] times = some final →
      ∀ x : Int,
        times.countP (fun t => decide (x ≤ t ∧ t < x + REQUEST_INTERVAL_MS)) ≤
          MAX_REQUESTS_PER_INTERVAL := by
  induction times using List.reverseRecOn with
  | nil =>
    intro _ final _ x
    simp [MAX_REQUESTS_PER_INTERVAL]
  | append_singleton l a ih =>
    intro hchain final hrun x
    rw [runAdmissions_append] at hrun
    rcases hmid : runAdmissions [] l with _ | mid
    · rw [hmid] at hrun
      simp at hrun
    · rw [hmid] at hrun
      simp only [Option.some_bind] at hrun
      simp only [runAdmissions] at hrun
      rcases hstep : throttleStep mid a with _ | st2
      · rw [hstep] at hrun
        simp at hrun
      · have hchain' : l.Chain' (· ≤ ·) := (List.chain'_append.mp hchain).1
        have hIH := ih hchain' mid hmid x
        rw [List.countP_append]
        by_cases hwin : x ≤ a ∧ a < x + REQUEST_INTERVAL_MS
        · have hguard : (throttleFilter mid a).length < MAX_REQUESTS_PER_INTERVAL := by
            rw [throttleStep] at hstep
            by_cases hlen : (throttleFilter mid a).length < MAX_REQUESTS_PER_INTERVAL
            · exact hlen
            · rw [if_neg hlen] at hstep
              exact absurd hstep (by simp)
          have hfa : throttleFilter mid a = throttleFilter l a := by
            rcases runAdmissions_state l hchain' mid hmid with ⟨hl, hmid0⟩ |
              ⟨b, hlast, hmidf⟩
            · rw [hl, hmid0]
            · have hba : b ≤ a := by
                have h3 := (List.chain'_append.mp hchain).2.2
                exact h3 b hlast a (by simp)
              rw [hmidf, throttleFilter_throttleFilter l b a hba]
          have hmono : l.countP (fun t => decide (x ≤ t ∧ t < x + REQUEST_INTERVAL_MS)) ≤
              l.countP (fun t => decide (a - t < REQUEST_INTERVAL_MS)) := by
            apply List.countP_mono_left
            intro t _ ht
            simp only [decide_eq_true_eq] at ht ⊢
            simp only [REQUEST_INTERVAL_MS] at ht hwin ⊢
            omega
          have hflen : l.countP (fun t => decide (a - t < REQUEST_INTERVAL_MS)) =
              (throttleFilter l a).length := by
            rw [throttleFilter, List.countP_eq_length_filter]
          have hb : l.countP (fun t => decide (x ≤ t ∧ t < x + REQUEST_INTERVAL_MS)) + 1 ≤
              MAX_REQUESTS_PER_INTERVAL := by
            rw [hfa] at hguard
            omega
          simpa [hwin] using hb
        · have hz : ([a].countP (fun t => decide (x ≤ t ∧ t < x + REQUEST_INTERVAL_MS))) = 0 := by
            simp [hwin]
          rw [hz]
          omega

/-- Witness for claim C6 at a concrete input: three admissions at 0,
100 and 900 ms all succeed and any 1000 ms window holds at most 15 of
them. -/
theorem throttle_window_invariant_witness :
    ([0, 100, 900] : List Int).countP
        (fun t => decide ((0 : Int) ≤ t ∧ t < 0 + REQUEST_INTERVAL_MS)) ≤
      MAX_REQUESTS_PER_INTERVAL := by
  have h := throttle_window_invariant [0, 100, 900] (by norm_num [List.chain'_cons])
    [0, 100, 900] (by decide) 0
  exact h

/-! ### Recency-filtered release scan
(`scanRecentReleases`, `getRecentReleasesForArtist`, `parseReleaseDate`,
src lines 737-870)

Dates are abstracted as epoch milliseconds (`Int`); `parse` abstracts
the JS `new Date(string).getTime()` with `none` for an invalid date.
In the source an invalid `Date` object is truthy but all its
comparisons are false (NaN), so a `none` parse is excluded both from
the keep test (`releaseDate && releaseDate >= sinceDate`) and from the
early-stop test (`lastDate && lastDate < sinceDate`), exactly as
mapping `none` to `false` does below. -/

structure AlbumItem where
  id : String
  release_date : String
  release_date_precision : String
deriving DecidableEq, Repr

structure ReleaseWithArtist where
  album : AlbumItem
  artist_name : String
deriving DecidableEq, Repr

/-- `SpotifyService.parseReleaseDate` (src lines 861-870): only
day-precision dates parse; any other precision yields nothing. -/
def parseReleaseDate (parse : String → Option Int) (dateStr : String) (precision : String) :
    Option Int :=
  if precision = "day" then parse dateStr else none

/-- The keep test of the page loop: a release is pushed iff its parsed
day-precision date is on or after the cutoff. -/
def keptOnPage (parse : String → Option Int) (since : Int) (items : List AlbumItem) :
    List AlbumItem :=
  items.filter (fun a =>
    match parseReleaseDate parse a.release_date a.release_date_precision with
    | some d => decide (since ≤ d)
    | none => false)

/-- The early-stop test: true when the last item of the page has a
parsed day-precision date strictly before the cutoff. -/
def lastOlderThanCutoff (parse : String → Option Int) (since : Int)
    (items : List AlbumItem) : Bool :=
  match items.getLast? with
  | some a =>
    match parseReleaseDate parse a.release_date a.release_date_precision with
    | some d => decide (d < since)
    | none => false
  | none => false

/-- The per-release-type page loop (at most 2 pages; `pages n` is the
page of items at offset `20 * n` plus whether a next page link exists).
Page 1 is fetched only when page 0 reported a next link and its last
item did not already fall before the cutoff. -/
def scanTypePages (parse : String → Option Int) (since : Int)
    (pages : Nat → List AlbumItem × Bool) : List AlbumItem :=
  let page0 := pages 0
  let kept0 := keptOnPage parse since page0.1
  if !(lastOlderThanCutoff parse since page0.1) && page0.2 then
    kept0 ++ keptOnPage parse since (pages 1).1
  else kept0

/-- `SpotifyService.getRecentReleasesForArtist` (src lines 799-859):
albums then singles, each through the bounded page loop, tagged with
the artist name. -/
def getRecentReleasesForArtist (parse : String → Option Int)
    (pages : String → Nat → List AlbumItem × Bool) (artistName : String) (since : Int) :
    List ReleaseWithArtist :=
  (scanTypePages parse since (pages "album") ++
      scanTypePages parse since (pages "single")).map
    (fun a => { album := a, artist_name := artistName })

/-- Deduplication against the running set of seen album IDs (first
occurrence wins), as the `seenAlbumIds` set in `scanRecentReleases`. -/
def dedupReleases : List ReleaseWithArtist → List String → List ReleaseWithArtist
  | [], _ => []
  | r :: rs, seen =>
    if r.album.id ∈ seen then dedupReleases rs seen
    else r :: dedupReleases rs (r.album.id :: seen)

/-- Sort key of the final `releases.sort`: the parsed release-date
instant (the source compares `new Date(release_date).getTime()` of any
precision; an invalid date is modelled as key 0 — the sort is a
permutation either way). -/
def releaseDateKey (parse : String → Option Int) (r : ReleaseWithArtist) : Int :=
  (parse r.album.release_date).getD 0

structure ScanReleasesResponse where
  releases : List ReleaseWithArtist
  totalArtistsChecked : Nat
deriving DecidableEq, Repr

/-- `SpotifyService.scanRecentReleases` (src lines 737-797): per-artist
recent releases (a failed per-artist fetch — `Promise.allSettled`
rejection — contributes nothing), deduplicated by album ID across the
scan, sorted by release date descending.  `artists` is the
(id, name) list after the optional `maxArtists` cap. -/
def scanRecentReleases (parse : String → Option Int) (artists : List (String × String))
    (pagesFor : String → String → Nat → List AlbumItem × Bool) (fails : String → Bool)
    (since : Int) : ScanReleasesResponse :=
  let collected :=
    (artists.map (fun a =>
      if fails a.1 then []
      else getRecentReleasesForArtist parse (pagesFor a.1) a.2 since)).flatten
  let deduped := dedupReleases collected []
  { releases :=
      List.insertionSort
        (fun r s => releaseDateKey parse s ≤ releaseDateKey parse r) deduped
    totalArtistsChecked := artists.length }

lemma mem_keptOnPage (parse : String → Option Int) (since : Int) (items : List AlbumItem)
    (a : AlbumItem) (ha : a ∈ keptOnPage parse since items) :
    a.release_date_precision = "day" ∧
      ∃ d, parse a.release_date = some d ∧ since ≤ d := by
  rw [keptOnPage, List.mem_filter] at ha
  obtain ⟨-, hcond⟩ := ha
  rcases hp : parseReleaseDate parse a.release_date a.release_date_precision with _ | d
  · rw [hp] at hcond
    simp at hcond
  · rw [hp] at hcond
    simp only [decide_eq_true_eq] at hcond
    rw [parseReleaseDate] at hp
    by_cases hprec : a.release_date_precision = "day"
    · rw [if_pos hprec] at hp
      exact ⟨hprec, d, hp, hcond⟩
    · rw [if_neg hprec] at hp
      exact absurd hp (by simp)

lemma mem_scanTypePages (parse : String → Option Int) (since : Int)
    (pages : Nat → List AlbumItem × Bool) (a : AlbumItem)
    (ha : a ∈ scanTypePages parse since pages) :
    ∃ items, a ∈ keptOnPage parse since items := by
  simp only [scanTypePages] at ha
  by_cases hcont : (!(lastOlderThanCutoff parse since (pages 0).1) && (pages 0).2) = true
  · rw [if_pos hcont] at ha
    rcases List.mem_append.mp ha with h | h
    · exact ⟨_, h⟩
    · exact ⟨_, h⟩
  · rw [if_neg hcont] at ha
    exact ⟨_, ha⟩

lemma mem_dedupReleases (l : List ReleaseWithArtist) :
    ∀ (seen : List String) (r : ReleaseWithArtist), r ∈ dedupReleases l seen → r ∈ l := by
  induction l with
  | nil => intro seen r h; rw [dedupReleases] at h; exact absurd h (by simp)
  | cons x xs ih =>
    intro seen r h
    rw [dedupReleases] at h
    by_cases hx : x.album.id ∈ seen
    · rw [if_pos hx] at h
      exact List.mem_cons_of_mem x (ih _ r h)
    · rw [if_neg hx] at h
      rcases List.mem_cons.mp h with h | h
      · exact h ▸ List.mem_cons_self x xs
      · exact List.mem_cons_of_mem x (ih _ r h)

/-- Claim C4: every release in the result of a recency-filtered scan is
a day-precision release whose parsed date is on or after the cutoff;
releases of any other precision are excluded regardless of their date
value (their parse yields nothing and they never pass the keep test). -/
theorem scan_day_precision_filter (parse : String → Option Int)
    (artists : List (String × String))
    (pagesFor : String → String → Nat → List AlbumItem × Bool) (fails : String → Bool)
    (since : Int) (r : ReleaseWithArtist)
    (hr : r ∈ (scanRecentReleases parse artists pagesFor fails since).releases) :
    r.album.release_date_precision = "day" ∧
      ∃ d, parse r.album.release_date = some d ∧ since ≤ d := by
  rw [scanRecentReleases] at hr
  simp only at hr
  have hdedup := (List.perm_insertionSort
    (fun r s => releaseDateKey parse s ≤ releaseDateKey parse r) _).mem_iff.mp hr
  have hcoll := mem_dedupReleases _ _ _ hdedup
  rw [List.mem_flatten] at hcoll
  obtain ⟨lr, hlr, hrin⟩ := hcoll
  rw [List.mem_map] at hlr
  obtain ⟨ar, -, hlr⟩ := hlr
  by_cases hf : fails ar.1
  · rw [if_pos hf] at hlr
    rw [← hlr] at hrin
    exact absurd hrin (by simp)
  · rw [if_neg hf] at hlr
    rw [← hlr, getRecentReleasesForArtist, List.mem_map] at hrin
    obtain ⟨a, ha, hra⟩ := hrin
    rw [List.mem_append] at ha
    have hmem : ∃ items, a ∈ keptOnPage parse since items := by
      rcases ha with ha | ha
      · exact mem_scanTypePages parse since (pagesFor ar.1 "album") a ha
      · exact mem_scanTypePages parse since (pagesFor ar.1 "single") a ha
    obtain ⟨items, hmem⟩ := hmem
    have hprop := mem_keptOnPage parse since items a hmem
    rw [← hra]
    exact hprop

/-- Witness for claim C4 at a concrete input: a single artist with one
day-precision release after the cutoff; the release appears in the scan
result and the theorem yields its day precision and in-window date. -/
theorem scan_day_precision_filter_witness :
    ({ album := { id := "alb1", release_date := "2024-05-01",
                  release_date_precision := "day" },
       artist_name := "Artist" } : ReleaseWithArtist).album.release_date_precision = "day" ∧
      ∃ d, (fun s => if s = "2024-05-01" then some (100 : Int) else none)
            (({ album := { id := "alb1", release_date := "2024-05-01",
                           release_date_precision := "day" },
                artist_name := "Artist" } : ReleaseWithArtist).album.release_date) = some d ∧
          (50 : Int) ≤ d :=
  scan_day_precision_filter
    (fun s => if s = "2024-05-01" then some (100 : Int) else none)
    [("a1", "Artist")]
    (fun _ _ n =>
      if n = 0 then
        ([{ id := "alb1", release_date := "2024-05-01",
            release_date_precision := "day" },
          { id := "alb2", release_date := "2024-03",
            release_date_precision := "month" }], false)
      else ([], false))
    (fun _ => false) 50
    { album := { id := "alb1", release_date := "2024-05-01",
                 release_date_precision := "day" },
      artist_name := "Artist" }
    (by decide)

/-! ### Playlist analysis sort (`analyzePlaylist`, src lines 398-413)

`lc` abstracts `String.prototype.localeCompare`: a locale-aware
three-way comparison (negative when the first string sorts before the
second).  The hypotheses used below are the consistency guarantees of a
comparison function: totality and transitivity of `lc x y ≤ 0`. -/

structure UnfollowedArtist where
  id : String
  name : String
  frequency : Int
deriving DecidableEq, Repr

/-- The comparator of `unfollowedArtists.sort` (src lines 408-413):
frequency descending first, then `localeCompare` on names. -/
def analyzeCmp (lc : String → String → Int) (a b : UnfollowedArtist) : Int :=
  if b.frequency ≠ a.frequency then b.frequency - a.frequency else lc a.name b.name

/-- The unfollowed subset and final sort of `analyzePlaylist`: artists
not in the followed set, sorted by the comparator (JS `Array.sort`
leaves the array sorted with respect to a consistent comparator). -/
def analyzeUnfollowedSorted (lc : String → String → Int)
    (artists : List UnfollowedArtist) (followedIds : List String) :
    List UnfollowedArtist :=
  List.insertionSort (fun a b => analyzeCmp lc a b ≤ 0)
    (artists.filter (fun a => !followedIds.contains a.id))

/-- The ordering the spec claims: frequency descending, ties broken by
name ascending in the locale-aware order. -/
def freqDescNameAsc (lc : String → String → Int) (a b : UnfollowedArtist) : Prop :=
  b.frequency < a.frequency ∨ (a.frequency = b.frequency ∧ lc a.name b.name ≤ 0)

lemma analyzeCmp_le_iff (lc : String → String → Int) (a b : UnfollowedArtist) :
    analyzeCmp lc a b ≤ 0 ↔ freqDescNameAsc lc a b := by
  rw [analyzeCmp, freqDescNameAsc]
  by_cases h : b.frequency = a.frequency
  · rw [if_neg (by simp [h])]
    constructor
    · intro hlc
      exact Or.inr ⟨h.symm, hlc⟩
    · rintro (hlt | ⟨-, hlc⟩)
      · omega
      · exact hlc
  · rw [if_pos (by simpa using h)]
    constructor
    · intro hle
      exact Or.inl (by omega)
    · rintro (hlt | ⟨heq, -⟩)
      · omega
      · exact absurd heq.symm h

/-- Claim C8: the unfollowedArtists list returned by `analyzePlaylist`
is sorted by frequency in descending order with ties broken by name in
ascending, locale-aware order, and is a permutation of the unfollowed
subset. -/
theorem analyzePlaylist_sorted (lc : String → String → Int)
    (htot : ∀ x y, lc x y ≤ 0 ∨ lc y x ≤ 0)
    (htrans : ∀ x y z, lc x y ≤ 0 → lc y z ≤ 0 → lc x z ≤ 0)
    (artists : List UnfollowedArtist) (followedIds : List String) :
    List.Sorted (freqDescNameAsc lc) (analyzeUnfollowedSorted lc artists followedIds) ∧
      (analyzeUnfollowedSorted lc artists followedIds).Perm
        (artists.filter (fun a => !followedIds.contains a.id)) := by
  haveI hT : IsTotal UnfollowedArtist (fun a b => analyzeCmp lc a b ≤ 0) := by
    constructor
    intro a b
    rw [analyzeCmp_le_iff, analyzeCmp_le_iff, freqDescNameAsc, freqDescNameAsc]
    rcases lt_trichotomy a.frequency b.frequency with h | h | h
    · exact Or.inr (Or.inl h)
    · rcases htot a.name b.name with hn | hn
      · exact Or.inl (Or.inr ⟨h, hn⟩)
      · exact Or.inr (Or.inr ⟨h.symm, hn⟩)
    · exact Or.inl (Or.inl h)
  haveI hTr : IsTrans UnfollowedArtist (fun a b => analyzeCmp lc a b ≤ 0) := by
    constructor
    intro a b c hab hbc
    rw [analyzeCmp_le_iff, freqDescNameAsc] at hab hbc ⊢
    rcases hab with h1 | ⟨h1, hn1⟩ <;> rcases hbc with h2 | ⟨h2, hn2⟩
    · exact Or.inl (by omega)
    · exact Or.inl (by omega)
    · exact Or.inl (by omega)
    · exact Or.inr ⟨h1.trans h2, htrans _ _ _ hn1 hn2⟩
  constructor
  · have hs := List.sorted_insertionSort (fun a b => analyzeCmp lc a b ≤ 0)
      (artists.filter (fun a => !followedIds.contains a.id))
    rw [analyzeUnfollowedSorted]
    exact List.Pairwise.imp (fun {a b} h => (analyzeCmp_le_iff lc a b).mp h) hs
  · exact List.perm_insertionSort _ _

/-- Witness for claim C8 at a concrete input: a length-based locale
comparison and three artists, two unfollowed; the returned list is
sorted by frequency descending with the name tie-break and permutes the
unfollowed subset. -/
theorem analyzePlaylist_sorted_witness :
    List.Sorted (freqDescNameAsc (fun x y => (x.length : Int) - y.length))
        (analyzeUnfollowedSorted (fun x y => (x.length : Int) - y.length)
          [{ id := "i1", name := "Bb", frequency := 1 },
           { id := "i2", name := "A", frequency := 3 },
           { id := "i3", name := "Cc", frequency := 1 }] ["i2"]) ∧
      (analyzeUnfollowedSorted (fun x y => (x.length : Int) - y.length)
          [{ id := "i1", name := "Bb", frequency := 1 },
           { id := "i2", name := "A", frequency := 3 },
           { id := "i3", name := "Cc", frequency := 1 }] ["i2"]).Perm
        ([{ id := "i1", name := "Bb", frequency := 1 },
          { id := "i2", name := "A", frequency := 3 },
          { id := "i3", name := "Cc", frequency := 1 }].filter
          (fun a => !(["i2"].contains a.id))) :=
  analyzePlaylist_sorted (fun x y => (x.length : Int) - y.length)
    (fun x y => by simp only []; omega) (fun x y z h1 h2 => by simp only [] at h1 h2 ⊢; omega)
    [{ id := "i1", name := "Bb", frequency := 1 },
     { id := "i2", name := "A", frequency := 3 },
     { id := "i3", name := "Cc", frequency := 1 }] ["i2"]

/-! ### Token lifecycle single-flight
(`handleUnauthorized`, `refreshAccessToken`, src lines 108-155)

Interleaving model.  A caller that observed a 401 performs one atomic
`enter` step — the synchronous section of `handleUnauthorized` plus
`refreshAccessToken` up to awaiting the shared promise: the JS event
loop runs it without interruption because there is no `await` between
the `tokenRefreshPromise` null-check and its assignment.  `enter`
propagates the original 401 at once when no refresh token exists;
otherwise it joins the in-flight refresh if the slot is occupied and
starts one (a single call to the token issuer) if not.  `completeOk`
models the stored promise resolving: tokens are replaced (`tokenGen`
increments), the `finally` clears the slot, and each waiting caller
replays its original request exactly once with the refreshed token
(its `_retry` flag marks it so a second 401 would propagate).
`completeFail` models the refresh rejecting: the `catch` resolves the
shared promise with null, the slot is cleared, and each waiting caller
rethrows its original 401 unchanged. -/

inductive CallerOutcome where
  | replayed (tokenGen : Nat)
  | propagated401
deriving DecidableEq, Repr

inductive TLMAct where
  | enter (i : Nat)
  | completeOk
  | completeFail
deriving DecidableEq, Repr

structure TLMState where
  slotBusy : Bool
  issuerCalls : Nat
  tokenGen : Nat
  waiting : List Nat
  outcomes : List (Nat × CallerOutcome)
deriving DecidableEq, Repr

def initTLM : TLMState :=
  { slotBusy := false, issuerCalls := 0, tokenGen := 0, waiting := [], outcomes := [] }

def tlmStep (hasRefreshToken : Bool) (s : TLMState) : TLMAct → Option TLMState
  | .enter i =>
    if !hasRefreshToken then
      some { s with outcomes := s.outcomes ++ [(i, .propagated401)] }
    else if s.slotBusy then
      some { s with waiting := s.waiting ++ [i] }
    else
      some { s with slotBusy := true, issuerCalls := s.issuerCalls + 1, waiting := [i] }
  | .completeOk =>
    if s.slotBusy then
      some { s with
        slotBusy := false
        tokenGen := s.tokenGen + 1
        outcomes := s.outcomes ++ s.waiting.map (fun i => (i, .replayed (s.tokenGen + 1)))
        waiting := [] }
    else none
  | .completeFail =>
    if s.slotBusy then
      some { s with
        slotBusy := false
        outcomes := s.outcomes ++ s.waiting.map (fun i => (i, .propagated401))
        waiting := [] }
    else none

def runTLM (hasRefreshToken : Bool) (s : TLMState) : List TLMAct → Option TLMState
  | [] => some s
  | a :: acts =>
    match tlmStep hasRefreshToken s a with
    | some s2 => runTLM hasRefreshToken s2 acts
    | none => none

lemma runTLM_enters_busy (cs : List Nat) :
    ∀ s : TLMState, s.slotBusy = true →
      runTLM true s (cs.map TLMAct.enter) = some { s with waiting := s.waiting ++ cs } := by
  induction cs with
  | nil => intro s _; simp [runTLM]
  | cons c cs ih =>
    intro s hbusy
    rw [List.map_cons, runTLM, tlmStep]
    simp only [Bool.not_true, Bool.false_eq_true, if_false, hbusy, if_true]
    rw [ih _ rfl]
    simp [hbusy]

lemma runTLM_enters_noToken (cs : List Nat) :
    ∀ s : TLMState,
      runTLM false s (cs.map TLMAct.enter) =
        some { s with outcomes := s.outcomes ++ cs.map (fun i => (i, .propagated401)) } := by
  induction cs with
  | nil => intro s; simp [runTLM]
  | cons c cs ih =>
    intro s
    rw [List.map_cons, runTLM, tlmStep]
    simp only [Bool.not_false, if_true]
    rw [ih]
    simp

lemma runTLM_append (hasRefreshToken : Bool) (l1 l2 : List TLMAct) :
    ∀ s, runTLM hasRefreshToken s (l1 ++ l2) =
      (runTLM hasRefreshToken s l1).bind (fun m => runTLM hasRefreshToken m l2) := by
  induction l1 with
  | nil => intro s; simp [runTLM]
  | cons a acts ih =>
    intro s
    rw [List.cons_append, runTLM, runTLM]
    cases tlmStep hasRefreshToken s a with
    | none => simp
    | some s2 => simpa using ih s2

lemma filter_fst_map_nomem {v : Nat → CallerOutcome} (cs : List Nat) (i : Nat) (hni : i ∉ cs) :
    (cs.map (fun j => (j, v j))).filter (fun p => decide (p.1 = i)) = [] := by
  induction cs with
  | nil => rfl
  | cons c cs ih =>
    have hc : ¬(c = i) := fun h => hni (h ▸ List.mem_cons_self c cs)
    have hcs : i ∉ cs := fun h => hni (List.mem_cons_of_mem c h)
    simp only [List.map_cons, List.filter_cons]
    rw [if_neg (by simpa using hc)]
    exact ih hcs

lemma filter_fst_map_single {v : Nat → CallerOutcome} (cs : List Nat) (i : Nat)
    (hmem : i ∈ cs) (hnd : cs.Nodup) :
    (cs.map (fun j => (j, v j))).filter (fun p => decide (p.1 = i)) = [(i, v i)] := by
  induction cs with
  | nil => exact absurd hmem (by simp)
  | cons c cs ih =>
    simp only [List.map_cons, List.filter_cons]
    rcases List.mem_cons.mp hmem with h | h
    · have hnotin : i ∉ cs := by
        rw [h]
        exact (List.nodup_cons.mp hnd).1
      rw [if_pos (by simp [h]), filter_fst_map_nomem cs i hnotin, h]
    · have hc : ¬(c = i) := by
        intro hci
        subst hci
        exact (List.nodup_cons.mp hnd).1 h
      rw [if_neg (by simpa using hc)]
      exact ih h (List.nodup_cons.mp hnd).2

/-- Claim C5: when N concurrent calls each observe a 401 (all join
before the shared refresh settles), exactly one refresh call reaches
the token issuer; when the refresh succeeds each caller replays its
request exactly once with the refreshed token, and when the refresh
fails — because no refresh token exists or the refresh call errors —
each caller propagates its original 401 unchanged. -/
theorem singleFlight_refresh (callers : List Nat) (hne : callers ≠ [])
    (hnd : callers.Nodup) :
    (∃ fin, runTLM true initTLM (callers.map TLMAct.enter ++ [TLMAct.completeOk]) = some fin ∧
      fin.issuerCalls = 1 ∧
      ∀ i ∈ callers,
        fin.outcomes.filter (fun p => decide (p.1 = i)) = [(i, .replayed 1)]) ∧
    (∃ fin, runTLM true initTLM (callers.map TLMAct.enter ++ [TLMAct.completeFail]) = some fin ∧
      fin.issuerCalls = 1 ∧
      ∀ i ∈ callers,
        fin.outcomes.filter (fun p => decide (p.1 = i)) = [(i, .propagated401)]) ∧
    (∃ fin, runTLM false initTLM (callers.map TLMAct.enter) = some fin ∧
      fin.issuerCalls = 0 ∧
      ∀ i ∈ callers,
        fin.outcomes.filter (fun p => decide (p.1 = i)) = [(i, .propagated401)]) := by
  obtain ⟨c, cs, rfl⟩ := List.exists_cons_of_ne_nil hne
  have hfirst : tlmStep true initTLM (.enter c) =
      some ⟨true, 1, 0, [c], []⟩ := by
    rw [tlmStep]
    simp [initTLM]
  have hrunEnters : runTLM true initTLM ((c :: cs).map TLMAct.enter) =
      some ⟨true, 1, 0, c :: cs, []⟩ := by
    rw [List.map_cons, runTLM, hfirst]
    show runTLM true ⟨true, 1, 0, [c], []⟩ (cs.map TLMAct.enter) = _
    rw [runTLM_enters_busy cs _ rfl]
    simp
  refine ⟨?_, ?_, ?_⟩
  · refine ⟨⟨false, 1, 1, [], (c :: cs).map (fun i => (i, .replayed 1))⟩, ?_, rfl, ?_⟩
    · rw [runTLM_append true _ _ _, hrunEnters]
      simp only [Option.some_bind]
      rw [runTLM, tlmStep]
      simp [runTLM]
    · intro i hi
      exact filter_fst_map_single (v := fun _ => CallerOutcome.replayed 1) (c :: cs) i hi hnd
  · refine ⟨⟨false, 1, 0, [], (c :: cs).map (fun i => (i, .propagated401))⟩, ?_, rfl, ?_⟩
    · rw [runTLM_append true _ _ _, hrunEnters]
      simp only [Option.some_bind]
      rw [runTLM, tlmStep]
      simp [runTLM]
    · intro i hi
      exact filter_fst_map_single (v := fun _ => CallerOutcome.propagated401) (c :: cs) i hi hnd
  · refine ⟨⟨false, 0, 0, [], (c :: cs).map (fun i => (i, .propagated401))⟩, ?_, rfl, ?_⟩
    · rw [runTLM_enters_noToken]
      simp [initTLM]
    · intro i hi
      exact filter_fst_map_single (v := fun _ => CallerOutcome.propagated401) (c :: cs) i hi hnd

/-- Witness for claim C5 at a concrete input: three concurrent callers
observing a 401 trigger exactly one issuer call and each is settled
exactly once. -/
theorem singleFlight_refresh_witness :
    (∃ fin, runTLM true initTLM (([4, 7, 9].map TLMAct.enter) ++ [TLMAct.completeOk]) =
        some fin ∧
      fin.issuerCalls = 1 ∧
      ∀ i ∈ [4, 7, 9],
        fin.outcomes.filter (fun p => decide (p.1 = i)) = [(i, .replayed 1)]) ∧
    (∃ fin, runTLM true initTLM (([4, 7, 9].map TLMAct.enter) ++ [TLMAct.completeFail]) =
        some fin ∧
      fin.issuerCalls = 1 ∧
      ∀ i ∈ [4, 7, 9],
        fin.outcomes.filter (fun p => decide (p.1 = i)) = [(i, .propagated401)]) ∧
    (∃ fin, runTLM false initTLM ([4, 7, 9].map TLMAct.enter) = some fin ∧
      fin.issuerCalls = 0 ∧
      ∀ i ∈ [4, 7, 9],
        fin.outcomes.filter (fun p => decide (p.1 = i)) = [(i, .propagated401)]) :=
  singleFlight_refresh [4, 7, 9] (by decide) (by decide)

end SpotifyReleaseHub
